import Mathlib

/-!
Verification of the web-crawler repository (crawl.py, main.py) against its
natural-language specification.

Shallow embedding conventions:
* HTML pages are modelled by `Page`: the ordered list of `<img>` elements (each
  carrying an optional `src` attribute) and the ordered list of `<a>` elements
  (each carrying an optional `href` attribute).  This is the only information
  the source ever queries from the markup parser.
* The network is modelled by a finite association list `World` mapping URLs to
  pages; `fetch_html_content world u = none` models `requests.get` raising a
  `RequestException` (crawl.py:31-37 catches it and returns `None`).
* `hashlib.sha256` (crawl.py:83-95) and `urllib.parse.urljoin` are external
  library capabilities; the traversal is parametric in them (`hashUrl`,
  `urljoin`).  Every theorem below holds for arbitrary instantiations.
* Filesystem and logging effects are made explicit: the crawl returns the list
  of fetch attempts it performed, and the downloaders return the list of HTTP
  requests issued and files written.
-/

/-- A parsed HTML document, as queried by the source: `find_all("img")` with the
optional `src` attribute and `find_all("a")` with the optional `href`
attribute, both in document order. -/
structure Page where
  imgs : List (Option String)
  links : List (Option String)
deriving Repr, DecidableEq

/-- The reachable network: a finite map from URL to the page served there.
A URL absent from the world models a network-level fetch failure. -/
abbrev World := List (String × Page)

/-- An image descriptor, the dict `{"url": ..., "page": ..., "depth": ...}`
built in crawl.py:54-62 and main.py:44-52. -/
structure Image where
  url : String
  page : String
  depth : Nat
deriving Repr, DecidableEq

/-- crawl.py:18 / main.py:13 — `MAX_IMAGES = 10`. -/
def MAX_IMAGES : Nat := 10

/-- crawl.py:21-37 `fetch_html_content` — `requests.get` plus parsing; on a
`RequestException` it logs and returns `None` (here `none`). -/
def fetch_html_content : World → String → Option Page
  | [], _ => none
  | (k, p) :: rest, u => if k = u then some p else fetch_html_content rest u

/-- `requests.get` for image downloads: the image network maps an image URL to
its byte content; `none` models a `RequestException`. -/
def requests_get : List (String × String) → String → Option String
  | [], _ => none
  | (k, b) :: rest, u => if k = u then some b else requests_get rest u

/-- Python `str.startswith`, character by character: does `pre` lead `s`? -/
def charLeads : List Char → List Char → Bool
  | [], _ => true
  | _ :: _, [] => false
  | c :: cs, d :: ds => c == d && charLeads cs ds

/-- Python `in` on strings: does `pat` occur inside the character list? -/
def charContains (pat : List Char) : List Char → Bool
  | [] => charLeads pat []
  | c :: cs => charLeads pat (c :: cs) || charContains pat cs

/-- `Path(p).name`: the characters after the last `/`. -/
def lastSlashSegment (s : String) : String :=
  ⟨(s.data.reverse.takeWhile (fun c => !(c == '/'))).reverse⟩

/-- Content of a file written under `images/`. -/
inductive FileContent where
  | jsonDoc (images : List Image)
  | imgBytes (data : String)
deriving Repr, DecidableEq

/-- The files of the `images/` directory, in creation order. -/
abbrev DirFiles := List (String × FileContent)

/-- `open(path, "w"/"wb")` + write: truncates an existing file of that name,
otherwise appends a new one. -/
def writeFile (files : DirFiles) (name : String) (content : FileContent) : DirFiles :=
  if (files.map Prod.fst).contains name then
    files.map (fun f => if f.1 = name then (name, content) else f)
  else files ++ [(name, content)]

/-- Outcome of crawl.py's `fetch_images_from_url`: either the accumulated image
list, or an abort by an uncaught `AttributeError` (crawl.py:129-130 calls
`extract_image_urls(None, ...)` when `fetch_html_content` returned `None`).
`fetched` records every `(url, depth)` for which `requests.get` was attempted,
in order. -/
inductive CrawlResult where
  | ok (images : List Image) (fetched : List (String × Nat)) : CrawlResult
  | crashed (fetched : List (String × Nat)) : CrawlResult
deriving Repr, DecidableEq

/-- The fetch-attempt log of a crawl outcome. -/
def CrawlResult.fetched : CrawlResult → List (String × Nat)
  | .ok _ l => l
  | .crashed l => l

/-- Number of URLs served by the world whose hash is not yet visited; the
termination measure of the breadth-first loop. -/
def unvisitedKeys (hashUrl : String → Nat) (world : World) (visited : List Nat) : Nat :=
  ((world.map Prod.fst).filter (fun u => decide (hashUrl u ∉ visited))).length

theorem filter_length_mono {α : Type} (l : List α) (p q : α → Bool)
    (himp : ∀ x, q x = true → p x = true) :
    (l.filter q).length ≤ (l.filter p).length := by
  induction l with
  | nil => simp
  | cons b t ih =>
    cases hq : q b
    · cases hp : p b <;> simp [List.filter_cons, hq, hp] <;> omega
    · have hpb := himp b hq
      simp [List.filter_cons, hq, hpb]
      omega

theorem filter_length_lt {α : Type} (l : List α) (p q : α → Bool)
    (himp : ∀ x, q x = true → p x = true) (a : α) (ha : a ∈ l)
    (hpa : p a = true) (hqa : q a = false) :
    (l.filter q).length < (l.filter p).length := by
  induction l with
  | nil => cases ha
  | cons b t ih =>
    rcases List.mem_cons.mp ha with rfl | hmem
    · simp [List.filter_cons, hpa, hqa]
      exact Nat.lt_succ_of_le (filter_length_mono t p q himp)
    · cases hq : q b
      · cases hp : p b
        · simp [List.filter_cons, hq, hp]
          exact ih hmem
        · simp [List.filter_cons, hq, hp]
          exact Nat.lt_succ_of_lt (ih hmem)
      · have hpb := himp b hq
        simp [List.filter_cons, hq, hpb]
        exact ih hmem

theorem mem_keys_of_fetch_some (world : World) (u : String) (p : Page)
    (h : fetch_html_content world u = some p) : u ∈ world.map Prod.fst := by
  induction world with
  | nil => simp [fetch_html_content] at h
  | cons kv rest ih =>
    obtain ⟨k, q⟩ := kv
    by_cases hk : k = u
    · subst hk; simp
    · simp [fetch_html_content, hk] at h
      simpa using Or.inr (ih h)

theorem unvisitedKeys_lt (hashUrl : String → Nat) (world : World) (visited : List Nat)
    (u : String) (p : Page) (hfetch : fetch_html_content world u = some p)
    (hnv : hashUrl u ∉ visited) :
    unvisitedKeys hashUrl world (hashUrl u :: visited) < unvisitedKeys hashUrl world visited := by
  apply filter_length_lt (world.map Prod.fst)
    (fun x => decide (hashUrl x ∉ visited))
    (fun x => decide (hashUrl x ∉ hashUrl u :: visited))
    (fun x hx => by
      simp only [decide_eq_true_eq] at hx ⊢
      intro hmem
      exact hx (List.mem_cons_of_mem _ hmem))
    u (mem_keys_of_fetch_some world u p hfetch)
    (by simpa using hnv)
    (by simp)

namespace Crawl

/-- crawl.py:40-66 `extract_image_urls`: keep the `<img>` elements carrying a
`src`, resolve each against the page URL, tag with page and depth, and cut to
the first `MAX_IMAGES` entries. -/
def extract_image_urls (urljoin : String → String → String) (html_content : Page)
    (url : String) (current_depth : Nat) : List Image :=
  ((html_content.imgs.filterMap id).map
    (fun src => (⟨urljoin url src, url, current_depth⟩ : Image))).take MAX_IMAGES

/-- crawl.py:69-80 `extract_links`: raw `href` values of the anchors carrying
one, in document order (not resolved here). -/
def extract_links (html_content : Page) : List String :=
  html_content.links.filterMap id

/-- crawl.py:120-142, the `while queue:` loop of `fetch_images_from_url`.
State: FIFO queue of `(url, depth)`, visited hash set, accumulated images, and
the fetch-attempt log.  A failed fetch aborts with `.crashed` because the
source then evaluates `None.find_all` inside `extract_image_urls`. -/
def fetch_loop (hashUrl : String → Nat) (urljoin : String → String → String) (world : World)
    (max_depth : Nat) :
    List (String × Nat) → List Nat → List Image → List (String × Nat) → CrawlResult
  | [], _visited, images, lg => .ok images lg
  | (current_url, current_depth) :: queue, visited, images, lg =>
    if hashUrl current_url ∈ visited then
      fetch_loop hashUrl urljoin world max_depth queue visited images lg
    else
      match hfetch : fetch_html_content world current_url with
      | none => .crashed (lg ++ [(current_url, current_depth)])
      | some html =>
        if current_depth = max_depth then
          fetch_loop hashUrl urljoin world max_depth queue (hashUrl current_url :: visited)
            (images ++ extract_image_urls urljoin html current_url current_depth)
            (lg ++ [(current_url, current_depth)])
        else
          fetch_loop hashUrl urljoin world max_depth
            (queue ++ (extract_links html).map
              (fun link => (urljoin current_url link, current_depth + 1)))
            (hashUrl current_url :: visited)
            (images ++ extract_image_urls urljoin html current_url current_depth)
            (lg ++ [(current_url, current_depth)])
termination_by queue visited _ _ => (unvisitedKeys hashUrl world visited, queue.length)
decreasing_by
  · apply Prod.Lex.right
    simp
  · apply Prod.Lex.left
    exact unvisitedKeys_lt hashUrl world visited current_url html hfetch (by assumption)
  · apply Prod.Lex.left
    exact unvisitedKeys_lt hashUrl world visited current_url html hfetch (by assumption)

/-- crawl.py:98-142 `fetch_images_from_url`: BFS from `(url, current_depth)`
with an initially empty visited set. -/
def fetch_images_from_url (hashUrl : String → Nat) (urljoin : String → String → String)
    (world : World) (url : String) (current_depth max_depth : Nat) : CrawlResult :=
  fetch_loop hashUrl urljoin world max_depth [(url, current_depth)] [] [] []

/-- The images crawl.py collects from one fetched page of the log (empty for a
page whose fetch failed — such a page never contributes in an `.ok` run). -/
def pageImages (urljoin : String → String → String) (world : World)
    (e : String × Nat) : List Image :=
  match fetch_html_content world e.1 with
  | some html => extract_image_urls urljoin html e.1 e.2
  | none => []

/-- urlparse(url).path keeps what precedes the query and fragment
(crawl.py:145-158). -/
def strip_query (url : String) : String :=
  ⟨url.data.takeWhile (fun c => !(c == '?' || c == '#'))⟩

/-- crawl.py:145-158 `extract_filename_from_url`: last path segment of the URL,
query parameters and fragment ignored. -/
def extract_filename_from_url (url : String) : String :=
  lastSlashSegment (strip_query url)

/-- crawl.py:161-175 `is_based64_encoded`: `text.startswith("data:image")`
together with `";base64" in text`. -/
def is_based64_encoded (text : String) : Bool :=
  charLeads ("data:image".data) text.data && charContains (";base64".data) text.data

/-- crawl.py:188-207 `save_images_metadata`: `shutil.rmtree` of the `images`
directory when it exists, `mkdir`, then, only for a non-empty list, write the
`{"images": [...]}` document.  The directory is `none` when absent, otherwise
`some` of its files.  The returned `Bool` records whether "No images to save."
was logged. -/
def save_images_metadata (dir : Option DirFiles) (images : List Image) :
    Option DirFiles × Bool :=
  let dir1 : Option DirFiles := if dir.isSome then none else dir
  let dir2 : DirFiles := match dir1 with
    | none => []
    | some fs => fs
  if images.isEmpty then (some dir2, true)
  else (some (writeFile dir2 "images.json" (.jsonDoc images)), false)

/-- State of crawl.py:210-234 `save_images_locally`: HTTP requests issued,
files written (source URL, filename, bytes), the `downloaded_images` set in
insertion order, and the directory contents. -/
structure DownloadState where
  requests : List String
  writes : List (String × String × String)
  downloaded : List String
  files : DirFiles
deriving Repr, DecidableEq

/-- crawl.py:219-234, the `for image in images:` loop: skip already-downloaded
URLs, skip base64 data URIs before any request, attempt the request (a failure
is logged and skipped without touching the downloaded set), and on success
write the file and record the URL. -/
def save_images_locally_loop (net : List (String × String)) :
    List Image → DownloadState → DownloadState
  | [], st => st
  | image :: rest, st =>
    if image.url ∈ st.downloaded then
      save_images_locally_loop net rest st
    else if is_based64_encoded image.url then
      save_images_locally_loop net rest st
    else
      match requests_get net image.url with
      | none =>
        save_images_locally_loop net rest { st with requests := st.requests ++ [image.url] }
      | some data =>
        save_images_locally_loop net rest
          { requests := st.requests ++ [image.url]
            writes := st.writes ++ [(image.url, extract_filename_from_url image.url, data)]
            downloaded := st.downloaded ++ [image.url]
            files := writeFile st.files (extract_filename_from_url image.url)
              (.imgBytes data) }

/-- crawl.py:210-234 `save_images_locally`, starting from an empty
`downloaded_images` set over the given directory contents. -/
def save_images_locally (net : List (String × String)) (images : List Image)
    (files : DirFiles) : DownloadState :=
  save_images_locally_loop net images ⟨[], [], [], files⟩

end Crawl

namespace MainPy

/-- main.py:31-65 `fetch_images_from_url`, flattened over a work list of URLs
all at the same depth (the source recurses on each `link` of the page's link
list in order; processing the list `url :: rest` runs the call for `url` —
including its recursive descent — and then the calls for `rest`).  Returns the
collected images together with the `(url, depth)` fetch-attempt log.  Note the
source keeps the raw `img["src"]` (main.py:46 — no `urljoin`) and has no
visited set. -/
def fetch_loop (world : World) : List String → Nat → Nat → List Image × List (String × Nat)
  | [], _, _ => ([], [])
  | url :: rest, current_depth, max_depth =>
    let this :=
      if current_depth > max_depth then (([] : List Image), ([] : List (String × Nat)))
      else
        match fetch_html_content world url with
        | none => ([], [(url, current_depth)])
        | some soup =>
          let collected := ((soup.imgs.filterMap id).map
            (fun src => (⟨src, url, current_depth⟩ : Image))).take MAX_IMAGES
          if h : current_depth < max_depth then
            let sub := fetch_loop world (soup.links.filterMap id) (current_depth + 1) max_depth
            (collected ++ sub.1, (url, current_depth) :: sub.2)
          else (collected, [(url, current_depth)])
    let tail := fetch_loop world rest current_depth max_depth
    (this.1 ++ tail.1, this.2 ++ tail.2)
termination_by urls current_depth max_depth => (max_depth + 1 - current_depth, urls.length)
decreasing_by
  · apply Prod.Lex.left
    omega
  · apply Prod.Lex.right
    simp

/-- main.py:16-65 `fetch_images_from_url` on a single starting URL. -/
def fetch_images_from_url (world : World) (url : String) (current_depth max_depth : Nat) :
    List Image × List (String × Nat) :=
  fetch_loop world [url] current_depth max_depth

/-- main.py:94 `Path(image["url"]).name`: last `/`-segment of the raw URL (no
query stripping, unlike crawl.py's `extract_filename_from_url`). -/
def path_name (url : String) : String :=
  lastSlashSegment url

/-- main.py:87-101, the download loop of `save_images`: no base64 check; the
request is attempted for every not-yet-downloaded URL; on success the filename
is (vacuously) checked against the URL set before writing. -/
def save_images_loop (net : List (String × String)) :
    List Image → Crawl.DownloadState → Crawl.DownloadState
  | [], st => st
  | image :: rest, st =>
    if image.url ∈ st.downloaded then
      save_images_loop net rest st
    else
      match requests_get net image.url with
      | none =>
        save_images_loop net rest { st with requests := st.requests ++ [image.url] }
      | some data =>
        if path_name image.url ∈ st.downloaded then
          save_images_loop net rest { st with requests := st.requests ++ [image.url] }
        else
          save_images_loop net rest
            { requests := st.requests ++ [image.url]
              writes := st.writes ++ [(image.url, path_name image.url, data)]
              downloaded := st.downloaded ++ [image.url]
              files := writeFile st.files (path_name image.url) (.imgBytes data) }

/-- main.py:68-101 `save_images`: on an empty list, log and return without
touching the directory; otherwise `mkdir` only if the directory is absent (no
clearing), overwrite `images.json`, then run the download loop. -/
def save_images (net : List (String × String)) (dir : Option DirFiles)
    (images : List Image) : Option DirFiles × Crawl.DownloadState × Bool :=
  if images.isEmpty then (dir, ⟨[], [], [], []⟩, true)
  else
    let dirFiles : DirFiles := match dir with
      | none => []
      | some fs => fs
    let dirFiles := writeFile dirFiles "images.json" (.jsonDoc images)
    let st := save_images_loop net images ⟨[], [], [], dirFiles⟩
    (some st.files, st, false)

end MainPy

/-- A sample deterministic URL hash standing in for `hash_url` (crawl.py:83-95,
SHA-256 via hashlib); the crawl theorems hold for every hash function, this one
is only used to evaluate concrete runs. -/
def demoHash (s : String) : Nat :=
  if s = "a" then 0
  else if s = "b" then 1
  else if s = "c" then 2
  else if s = "dead" then 3
  else if s = "http://a" then 4
  else 5

/-- Modelled from the spec: the URL Resolver capability ("standard base-relative
URL resolution" — `urllib.parse.urljoin` in the source, an external library
absent from the repository), to the precision the claims need: a reference
already carrying a scheme is returned unchanged, any other reference is
appended to the base. -/
def urljoinModel (base ref : String) : String :=
  if charLeads ("http".data) ref.data then ref else ⟨base.data ++ ref.data⟩

namespace Crawl

theorem fetch_loop_nil (hashUrl : String → Nat) (uj : String → String → String)
    (world : World) (m : Nat) (v : List Nat) (i : List Image) (lg : List (String × Nat)) :
    fetch_loop hashUrl uj world m [] v i lg = .ok i lg := by
  rw [fetch_loop]

theorem fetch_loop_cons (hashUrl : String → Nat) (uj : String → String → String)
    (world : World) (m : Nat) (u : String) (d : Nat) (queue : List (String × Nat))
    (visited : List Nat) (images : List Image) (lg : List (String × Nat)) :
    fetch_loop hashUrl uj world m ((u, d) :: queue) visited images lg
      = if hashUrl u ∈ visited then
          fetch_loop hashUrl uj world m queue visited images lg
        else
          match fetch_html_content world u with
          | none => .crashed (lg ++ [(u, d)])
          | some html =>
            if d = m then
              fetch_loop hashUrl uj world m queue (hashUrl u :: visited)
                (images ++ extract_image_urls uj html u d) (lg ++ [(u, d)])
            else
              fetch_loop hashUrl uj world m
                (queue ++ (extract_links html).map (fun link => (uj u link, d + 1)))
                (hashUrl u :: visited)
                (images ++ extract_image_urls uj html u d) (lg ++ [(u, d)]) := by
  rw [fetch_loop]
  split
  · rfl
  · split <;> rename_i heq <;> rw [heq]

end Crawl

namespace Crawl

theorem mem_extract (uj : String → String → String) (html : Page) (url : String)
    (dep : Nat) (img : Image) (h : img ∈ extract_image_urls uj html url dep) :
    img.page = url ∧ img.depth = dep ∧ ∃ src ∈ html.imgs.filterMap id, img.url = uj url src := by
  unfold extract_image_urls at h
  have h2 := List.mem_of_mem_take h
  rcases List.mem_map.mp h2 with ⟨src, hsrc, rfl⟩
  exact ⟨rfl, rfl, src, hsrc, rfl⟩

theorem fetch_loop_fetched_bounds (hashUrl : String → Nat) (uj : String → String → String)
    (world : World) (m lo : Nat) (q : List (String × Nat)) (v : List Nat) (i : List Image)
    (lg : List (String × Nat)) :
    (∀ e ∈ q, lo ≤ e.2 ∧ e.2 ≤ m) → (∀ e ∈ lg, lo ≤ e.2 ∧ e.2 ≤ m) →
    ∀ e ∈ (fetch_loop hashUrl uj world m q v i lg).fetched, lo ≤ e.2 ∧ e.2 ≤ m := by
  induction q, v, i, lg using fetch_loop.induct hashUrl uj world m with
  | case1 v i lg =>
    intro _ hlg
    simpa [fetch_loop_nil, CrawlResult.fetched] using hlg
  | case2 u d queue visited images lg hmem ih =>
    intro hq hlg
    rw [fetch_loop_cons, if_pos hmem]
    exact ih (fun e he => hq e (List.mem_cons_of_mem _ he)) hlg
  | case3 u d queue visited images lg hmem hfetch =>
    intro hq hlg
    rw [fetch_loop_cons, if_neg hmem]
    simp only [hfetch]
    simp only [CrawlResult.fetched]
    intro e he
    rcases List.mem_append.mp he with h | h
    · exact hlg e h
    · rcases List.mem_singleton.mp h with rfl
      exact hq (u, d) (List.mem_cons_self _ _)
  | case4 u queue visited images lg hmem html hfetch ih =>
    intro hq hlg
    rw [fetch_loop_cons, if_neg hmem]
    simp only [hfetch, if_true]
    refine ih (fun e he => hq e (List.mem_cons_of_mem _ he)) ?_
    intro e he
    rcases List.mem_append.mp he with h | h
    · exact hlg e h
    · rcases List.mem_singleton.mp h with rfl
      exact hq (u, m) (List.mem_cons_self _ _)
  | case5 u d queue visited images lg hmem html hfetch hne ih =>
    intro hq hlg
    rw [fetch_loop_cons, if_neg hmem]
    simp only [hfetch]
    rw [if_neg hne]
    refine ih ?_ ?_
    · intro e he
      rcases List.mem_append.mp he with h | h
      · exact hq e (List.mem_cons_of_mem _ h)
      · rcases List.mem_map.mp h with ⟨link, _, rfl⟩
        have hd := hq (u, d) (List.mem_cons_self _ _)
        simp only at hd ⊢
        omega
    · intro e he
      rcases List.mem_append.mp he with h | h
      · exact hlg e h
      · rcases List.mem_singleton.mp h with rfl
        exact hq (u, d) (List.mem_cons_self _ _)

theorem fetch_loop_ok_decomp (hashUrl : String → Nat) (uj : String → String → String)
    (world : World) (m : Nat) (q : List (String × Nat)) (v : List Nat) (i : List Image)
    (lg : List (String × Nat)) :
    ∀ imgs lg2, fetch_loop hashUrl uj world m q v i lg = .ok imgs lg2 →
    ∃ ext, lg2 = lg ++ ext ∧ imgs = i ++ (ext.map (pageImages uj world)).flatten := by
  induction q, v, i, lg using fetch_loop.induct hashUrl uj world m with
  | case1 v i lg =>
    intro imgs lg2 heq
    rw [fetch_loop_nil] at heq
    cases heq
    exact ⟨[], by simp⟩
  | case2 u d queue visited images lg hmem ih =>
    intro imgs lg2 heq
    rw [fetch_loop_cons, if_pos hmem] at heq
    exact ih imgs lg2 heq
  | case3 u d queue visited images lg hmem hfetch =>
    intro imgs lg2 heq
    rw [fetch_loop_cons, if_neg hmem] at heq
    simp only [hfetch] at heq
    cases heq
  | case4 u queue visited images lg hmem html hfetch ih =>
    intro imgs lg2 heq
    rw [fetch_loop_cons, if_neg hmem] at heq
    simp only [hfetch, if_true] at heq
    rcases ih imgs lg2 heq with ⟨ext, hlg, himgs⟩
    refine ⟨(u, m) :: ext, ?_, ?_⟩
    · simpa using hlg
    · simp only [List.map_cons, List.flatten, himgs]
      have hp : pageImages uj world (u, m) = extract_image_urls uj html u m := by
        simp [pageImages, hfetch]
      rw [hp]
      simp
  | case5 u d queue visited images lg hmem html hfetch hne ih =>
    intro imgs lg2 heq
    rw [fetch_loop_cons, if_neg hmem] at heq
    simp only [hfetch] at heq
    rw [if_neg hne] at heq
    rcases ih imgs lg2 heq with ⟨ext, hlg, himgs⟩
    refine ⟨(u, d) :: ext, ?_, ?_⟩
    · simpa using hlg
    · simp only [List.map_cons, List.flatten, himgs]
      have hp : pageImages uj world (u, d) = extract_image_urls uj html u d := by
        simp [pageImages, hfetch]
      rw [hp]
      simp

theorem fetch_loop_fetched_nodup (hashUrl : String → Nat) (uj : String → String → String)
    (world : World) (m : Nat) (q : List (String × Nat)) (v : List Nat) (i : List Image)
    (lg : List (String × Nat)) :
    (∀ u ∈ lg.map Prod.fst, hashUrl u ∈ v) → (lg.map Prod.fst).Nodup →
    ((fetch_loop hashUrl uj world m q v i lg).fetched.map Prod.fst).Nodup := by
  induction q, v, i, lg using fetch_loop.induct hashUrl uj world m with
  | case1 v i lg =>
    intro _ hnd
    simpa [fetch_loop_nil, CrawlResult.fetched] using hnd
  | case2 u d queue visited images lg hmem ih =>
    intro hv hnd
    rw [fetch_loop_cons, if_pos hmem]
    exact ih hv hnd
  | case3 u d queue visited images lg hmem hfetch =>
    intro hv hnd
    rw [fetch_loop_cons, if_neg hmem]
    simp only [hfetch]
    simp only [CrawlResult.fetched, List.map_append, List.map_cons, List.map_nil]
    rw [List.nodup_append]
    refine ⟨hnd, List.nodup_singleton _, ?_⟩
    intro x hx hx2
    rcases List.mem_singleton.mp hx2 with rfl
    exact hmem (hv x hx)
  | case4 u queue visited images lg hmem html hfetch ih =>
    intro hv hnd
    rw [fetch_loop_cons, if_neg hmem]
    simp only [hfetch, if_true]
    refine ih ?_ ?_
    · intro x hx
      rw [List.map_append] at hx
      rcases List.mem_append.mp hx with h | h
      · exact List.mem_cons_of_mem _ (hv x h)
      · have hxu : x = u := by simpa using h
        subst hxu
        exact List.mem_cons_self _ _
    · simp only [List.map_append, List.map_cons, List.map_nil]
      rw [List.nodup_append]
      refine ⟨hnd, List.nodup_singleton _, ?_⟩
      intro x hx hx2
      rcases List.mem_singleton.mp hx2 with rfl
      exact hmem (hv x hx)
  | case5 u d queue visited images lg hmem html hfetch hne ih =>
    intro hv hnd
    rw [fetch_loop_cons, if_neg hmem]
    simp only [hfetch]
    rw [if_neg hne]
    refine ih ?_ ?_
    · intro x hx
      rw [List.map_append] at hx
      rcases List.mem_append.mp hx with h | h
      · exact List.mem_cons_of_mem _ (hv x h)
      · have hxu : x = u := by simpa using h
        subst hxu
        exact List.mem_cons_self _ _
    · simp only [List.map_append, List.map_cons, List.map_nil]
      rw [List.nodup_append]
      refine ⟨hnd, List.nodup_singleton _, ?_⟩
      intro x hx hx2
      rcases List.mem_singleton.mp hx2 with rfl
      exact hmem (hv x hx)

end Crawl

namespace Crawl

theorem extract_depth (uj : String → String → String) (html : Page) (url : String)
    (dep : Nat) (x : Image) (h : x ∈ extract_image_urls uj html url dep) : x.depth = dep :=
  (mem_extract uj html url dep x h).2.1

theorem pageImages_page_depth (uj : String → String → String) (world : World)
    (e : String × Nat) (img : Image) (h : img ∈ pageImages uj world e) :
    img.page = e.1 ∧ img.depth = e.2 := by
  unfold pageImages at h
  cases hfe : fetch_html_content world e.1 with
  | none => rw [hfe] at h; cases h
  | some html =>
    rw [hfe] at h
    have hm := mem_extract uj html e.1 e.2 img h
    exact ⟨hm.1, hm.2.1⟩

theorem fetch_loop_sorted (hashUrl : String → Nat) (uj : String → String → String)
    (world : World) (m : Nat) (q : List (String × Nat)) (v : List Nat) (i : List Image)
    (lg : List (String × Nat)) :
    List.Pairwise (fun a b : String × Nat => a.2 ≤ b.2) q →
    (∀ a ∈ q, ∀ b ∈ q, a.2 ≤ b.2 + 1) →
    List.Pairwise (fun a b : Image => a.depth ≤ b.depth) i →
    (∀ x ∈ i, ∀ e ∈ q, x.depth ≤ e.2) →
    ∀ imgs lg2, fetch_loop hashUrl uj world m q v i lg = .ok imgs lg2 →
    List.Pairwise (fun a b : Image => a.depth ≤ b.depth) imgs := by
  induction q, v, i, lg using fetch_loop.induct hashUrl uj world m with
  | case1 v i lg =>
    intro _ _ hi _ imgs lg2 heq
    rw [fetch_loop_nil] at heq
    cases heq
    exact hi
  | case2 u d queue visited images lg hmem ih =>
    intro hq hq2 hi hiq imgs lg2 heq
    rw [fetch_loop_cons, if_pos hmem] at heq
    exact ih hq.of_cons
      (fun a ha b hb => hq2 a (List.mem_cons_of_mem _ ha) b (List.mem_cons_of_mem _ hb))
      hi (fun x hx e he => hiq x hx e (List.mem_cons_of_mem _ he)) imgs lg2 heq
  | case3 u d queue visited images lg hmem hfetch =>
    intro _ _ _ _ imgs lg2 heq
    rw [fetch_loop_cons, if_neg hmem] at heq
    simp only [hfetch] at heq
    cases heq
  | case4 u queue visited images lg hmem html hfetch ih =>
    intro hq hq2 hi hiq imgs lg2 heq
    rw [fetch_loop_cons, if_neg hmem] at heq
    simp only [hfetch, if_true] at heq
    rcases List.pairwise_cons.mp hq with ⟨hhead, htail⟩
    refine ih htail
      (fun a ha b hb => hq2 a (List.mem_cons_of_mem _ ha) b (List.mem_cons_of_mem _ hb))
      ?_ ?_ imgs lg2 heq
    · rw [List.pairwise_append]
      refine ⟨hi, ?_, ?_⟩
      · refine List.pairwise_of_forall_mem_list ?_
        intro a ha b hb
        rw [extract_depth uj html u m a ha, extract_depth uj html u m b hb]
      · intro a ha b hb
        rw [extract_depth uj html u m b hb]
        exact hiq a ha (u, m) (List.mem_cons_self _ _)
    · intro x hx e he
      rcases List.mem_append.mp hx with h | h
      · exact hiq x h e (List.mem_cons_of_mem _ he)
      · rw [extract_depth uj html u m x h]
        exact hhead e he
  | case5 u d queue visited images lg hmem html hfetch hne ih =>
    intro hq hq2 hi hiq imgs lg2 heq
    rw [fetch_loop_cons, if_neg hmem] at heq
    simp only [hfetch] at heq
    rw [if_neg hne] at heq
    rcases List.pairwise_cons.mp hq with ⟨hhead, htail⟩
    have hql : ∀ a ∈ queue, a.2 ≤ d + 1 := by
      intro a ha
      exact hq2 a (List.mem_cons_of_mem _ ha) (u, d) (List.mem_cons_self _ _)
    have hnew : ∀ b ∈ (extract_links html).map (fun link => (uj u link, d + 1)), b.2 = d + 1 := by
      intro b hb
      rcases List.mem_map.mp hb with ⟨link, _, rfl⟩
      rfl
    refine ih ?_ ?_ ?_ ?_ imgs lg2 heq
    · rw [List.pairwise_append]
      refine ⟨htail, ?_, ?_⟩
      · refine List.pairwise_of_forall_mem_list ?_
        intro a ha b hb
        rw [hnew a ha, hnew b hb]
      · intro a ha b hb
        rw [hnew b hb]
        exact hql a ha
    · intro a ha b hb
      rcases List.mem_append.mp ha with ha' | ha' <;> rcases List.mem_append.mp hb with hb' | hb'
      · exact hq2 a (List.mem_cons_of_mem _ ha') b (List.mem_cons_of_mem _ hb')
      · rw [hnew b hb']
        have := hql a ha'
        omega
      · rw [hnew a ha']
        have := hhead b hb'
        omega
      · rw [hnew a ha', hnew b hb']
        omega
    · rw [List.pairwise_append]
      refine ⟨hi, ?_, ?_⟩
      · refine List.pairwise_of_forall_mem_list ?_
        intro a ha b hb
        rw [extract_depth uj html u d a ha, extract_depth uj html u d b hb]
      · intro a ha b hb
        rw [extract_depth uj html u d b hb]
        exact hiq a ha (u, d) (List.mem_cons_self _ _)
    · intro x hx e he
      rcases List.mem_append.mp hx with hx' | hx'
      · rcases List.mem_append.mp he with he' | he'
        · exact hiq x hx' e (List.mem_cons_of_mem _ he')
        · rw [hnew e he']
          have := hiq x hx' (u, d) (List.mem_cons_self _ _)
          omega
      · rw [extract_depth uj html u d x hx']
        rcases List.mem_append.mp he with he' | he'
        · exact hhead e he'
        · rw [hnew e he']
          omega

end Crawl



namespace Crawl

theorem save_loop_append (net : List (String × String)) (xs ys : List Image)
    (st : DownloadState) :
    save_images_locally_loop net (xs ++ ys) st
      = save_images_locally_loop net ys (save_images_locally_loop net xs st) := by
  induction xs generalizing st with
  | nil => rfl
  | cons a t ih =>
    simp only [List.cons_append, save_images_locally_loop]
    by_cases h1 : a.url ∈ st.downloaded
    · simp only [if_pos h1]
      exact ih st
    · simp only [if_neg h1]
      by_cases h2 : is_based64_encoded a.url = true
      · simp only [h2, if_true]
        exact ih st
      · simp only [Bool.not_eq_true] at h2
        simp only [h2, Bool.false_eq_true, if_false]
        cases hr : requests_get net a.url with
        | none =>
          simp only [hr]
          exact ih _
        | some b =>
          simp only [hr]
          exact ih _

theorem save_loop_downloaded_sub (net : List (String × String)) (xs : List Image)
    (st : DownloadState) :
    st.downloaded ⊆ (save_images_locally_loop net xs st).downloaded := by
  induction xs generalizing st with
  | nil => exact fun x h => h
  | cons a t ih =>
    simp only [save_images_locally_loop]
    by_cases h1 : a.url ∈ st.downloaded
    · simp only [if_pos h1]
      exact ih st
    · simp only [if_neg h1]
      by_cases h2 : is_based64_encoded a.url = true
      · simp only [h2, if_true]
        exact ih st
      · simp only [Bool.not_eq_true] at h2
        simp only [h2, Bool.false_eq_true, if_false]
        cases hr : requests_get net a.url with
        | none =>
          simp only [hr]
          exact ih { st with requests := st.requests ++ [a.url] }
        | some b =>
          simp only [hr]
          intro x hx
          refine ih ⟨st.requests ++ [a.url],
            st.writes ++ [(a.url, extract_filename_from_url a.url, b)],
            st.downloaded ++ [a.url],
            writeFile st.files (extract_filename_from_url a.url) (.imgBytes b)⟩ ?_
          simp only [List.mem_append]
          exact Or.inl hx

theorem save_loop_nodup (net : List (String × String)) (xs : List Image)
    (st : DownloadState) (hnd : st.downloaded.Nodup)
    (hw : st.writes.map (fun wr => wr.1) = st.downloaded) :
    (save_images_locally_loop net xs st).downloaded.Nodup
    ∧ (save_images_locally_loop net xs st).writes.map (fun wr => wr.1)
        = (save_images_locally_loop net xs st).downloaded := by
  induction xs generalizing st with
  | nil => exact ⟨hnd, hw⟩
  | cons a t ih =>
    simp only [save_images_locally_loop]
    by_cases h1 : a.url ∈ st.downloaded
    · simp only [if_pos h1]
      exact ih st hnd hw
    · simp only [if_neg h1]
      by_cases h2 : is_based64_encoded a.url = true
      · simp only [h2, if_true]
        exact ih st hnd hw
      · simp only [Bool.not_eq_true] at h2
        simp only [h2, Bool.false_eq_true, if_false]
        cases hr : requests_get net a.url with
        | none =>
          simp only [hr]
          exact ih { st with requests := st.requests ++ [a.url] } hnd hw
        | some b =>
          simp only [hr]
          refine ih ⟨st.requests ++ [a.url],
            st.writes ++ [(a.url, extract_filename_from_url a.url, b)],
            st.downloaded ++ [a.url],
            writeFile st.files (extract_filename_from_url a.url) (.imgBytes b)⟩ ?_ ?_
          · simp only [List.nodup_append]
            refine ⟨hnd, List.nodup_singleton _, ?_⟩
            intro x hx hx2
            rcases List.mem_singleton.mp hx2 with rfl
            exact h1 hx
          · simp only [List.map_append, List.map_cons, List.map_nil, hw]

theorem save_loop_count (net : List (String × String)) (u : String) (b : String)
    (hb : requests_get net u = some b) (h64 : is_based64_encoded u = false)
    (xs : List Image) (st : DownloadState)
    (hc : List.count u st.requests ≤ 1)
    (hiff : u ∈ st.downloaded ↔ List.count u st.requests = 1) :
    List.count u (save_images_locally_loop net xs st).requests ≤ 1
    ∧ (u ∈ (save_images_locally_loop net xs st).downloaded
        ↔ List.count u (save_images_locally_loop net xs st).requests = 1)
    ∧ (u ∈ xs.map Image.url → u ∈ (save_images_locally_loop net xs st).downloaded) := by
  induction xs generalizing st with
  | nil =>
    refine ⟨hc, hiff, ?_⟩
    intro h
    cases h
  | cons a t ih =>
    simp only [save_images_locally_loop]
    by_cases hau : a.url = u
    · by_cases h1 : a.url ∈ st.downloaded
      · simp only [if_pos h1]
        rcases ih st hc hiff with ⟨c1, c2, _⟩
        exact ⟨c1, c2, fun _ => save_loop_downloaded_sub net t st (hau ▸ h1)⟩
      · simp only [if_neg h1]
        rw [hau] at h1 ⊢
        simp only [h64, Bool.false_eq_true, if_false, hb]
        have hcount0 : List.count u st.requests = 0 := by
          rcases Nat.lt_or_ge (List.count u st.requests) 1 with h | h
          · omega
          · exfalso
            exact h1 (hiff.mpr (by omega))
        have hc' : List.count u (st.requests ++ [u]) ≤ 1 := by
          simp [List.count_append, hcount0]
        have hiff' : u ∈ st.downloaded ++ [u]
            ↔ List.count u (st.requests ++ [u]) = 1 := by
          simp [List.count_append, hcount0]
        rcases ih ⟨st.requests ++ [u],
            st.writes ++ [(u, extract_filename_from_url u, b)],
            st.downloaded ++ [u],
            writeFile st.files (extract_filename_from_url u) (.imgBytes b)⟩ hc' hiff'
          with ⟨c1, c2, _⟩
        refine ⟨c1, c2, fun _ => ?_⟩
        refine save_loop_downloaded_sub net t _ ?_
        simp
    · have hone : ∀ reqs : List String,
          List.count u (reqs ++ [a.url]) = List.count u reqs := by
        intro reqs
        simp [List.count_append, List.count_singleton', hau]
      by_cases h1 : a.url ∈ st.downloaded
      · simp only [if_pos h1]
        rcases ih st hc hiff with ⟨c1, c2, c3⟩
        refine ⟨c1, c2, fun hm => c3 ?_⟩
        rcases List.mem_map.mp hm with ⟨x, hx, hxu⟩
        rcases List.mem_cons.mp hx with rfl | hx'
        · exact absurd hxu hau
        · exact List.mem_map.mpr ⟨x, hx', hxu⟩
      · simp only [if_neg h1]
        by_cases h2 : is_based64_encoded a.url = true
        · simp only [h2, if_true]
          rcases ih st hc hiff with ⟨c1, c2, c3⟩
          refine ⟨c1, c2, fun hm => c3 ?_⟩
          rcases List.mem_map.mp hm with ⟨x, hx, hxu⟩
          rcases List.mem_cons.mp hx with rfl | hx'
          · exact absurd hxu hau
          · exact List.mem_map.mpr ⟨x, hx', hxu⟩
        · simp only [Bool.not_eq_true] at h2
          simp only [h2, Bool.false_eq_true, if_false]
          cases hr : requests_get net a.url with
          | none =>
            simp only [hr]
            have hc' : List.count u (st.requests ++ [a.url]) ≤ 1 := by
              rw [hone]
              exact hc
            have hiff' : u ∈ st.downloaded
                ↔ List.count u (st.requests ++ [a.url]) = 1 := by
              rw [hone]
              exact hiff
            rcases ih { st with requests := st.requests ++ [a.url] } hc' hiff'
              with ⟨c1, c2, c3⟩
            refine ⟨c1, c2, fun hm => c3 ?_⟩
            rcases List.mem_map.mp hm with ⟨x, hx, hxu⟩
            rcases List.mem_cons.mp hx with rfl | hx'
            · exact absurd hxu hau
            · exact List.mem_map.mpr ⟨x, hx', hxu⟩
          | some d =>
            simp only [hr]
            have hc' : List.count u (st.requests ++ [a.url]) ≤ 1 := by
              rw [hone]
              exact hc
            have hiff' : u ∈ st.downloaded ++ [a.url]
                ↔ List.count u (st.requests ++ [a.url]) = 1 := by
              rw [hone]
              constructor
              · intro hm
                rcases List.mem_append.mp hm with h | h
                · exact hiff.mp h
                · exact absurd (List.mem_singleton.mp h).symm hau
              · intro hcnt
                exact List.mem_append.mpr (Or.inl (hiff.mpr hcnt))
            rcases ih ⟨st.requests ++ [a.url],
                st.writes ++ [(a.url, extract_filename_from_url a.url, d)],
                st.downloaded ++ [a.url],
                writeFile st.files (extract_filename_from_url a.url) (.imgBytes d)⟩ hc' hiff'
              with ⟨c1, c2, c3⟩
            refine ⟨c1, c2, fun hm => c3 ?_⟩
            rcases List.mem_map.mp hm with ⟨x, hx, hxu⟩
            rcases List.mem_cons.mp hx with rfl | hx'
            · exact absurd hxu hau
            · exact List.mem_map.mpr ⟨x, hx', hxu⟩

theorem save_loop_base64 (net : List (String × String)) (xs : List Image) (u : String)
    (h64 : is_based64_encoded u = true) (st : DownloadState)
    (hreq : u ∉ st.requests) (hwr : ∀ wr ∈ st.writes, wr.1 ≠ u) :
    u ∉ (save_images_locally_loop net xs st).requests
    ∧ ∀ wr ∈ (save_images_locally_loop net xs st).writes, wr.1 ≠ u := by
  induction xs generalizing st with
  | nil => exact ⟨hreq, hwr⟩
  | cons a t ih =>
    simp only [save_images_locally_loop]
    by_cases h1 : a.url ∈ st.downloaded
    · simp only [if_pos h1]
      exact ih st hreq hwr
    · simp only [if_neg h1]
      by_cases hau : a.url = u
      · rw [hau, h64]
        simp only [if_true]
        exact ih st hreq hwr
      · by_cases h2 : is_based64_encoded a.url = true
        · simp only [h2, if_true]
          exact ih st hreq hwr
        · simp only [Bool.not_eq_true] at h2
          simp only [h2, Bool.false_eq_true, if_false]
          have hreq' : u ∉ st.requests ++ [a.url] := by
            intro hm
            rcases List.mem_append.mp hm with h | h
            · exact hreq h
            · exact hau (List.mem_singleton.mp h).symm
          cases hr : requests_get net a.url with
          | none =>
            simp only [hr]
            exact ih { st with requests := st.requests ++ [a.url] } hreq' hwr
          | some d =>
            simp only [hr]
            refine ih ⟨st.requests ++ [a.url],
              st.writes ++ [(a.url, extract_filename_from_url a.url, d)],
              st.downloaded ++ [a.url],
              writeFile st.files (extract_filename_from_url a.url) (.imgBytes d)⟩ hreq' ?_
            intro wr hwrm
            rcases List.mem_append.mp hwrm with h | h
            · exact hwr wr h
            · rcases List.mem_singleton.mp h with rfl
              exact hau

end Crawl

/-- C1 (amended): for crawl.py's breadth-first crawl started at a depth not
exceeding `max_depth` (the program seeds at depth 1), every fetch lies at a
depth between the start depth and `max_depth` — so no page beyond the ceiling
is ever fetched — and a successful run returns exactly the concatenation, in
visit order, of the capped image extraction of every visited page, each image
at its page's depth within the same bounds.  The unamended claim fails when
`max_depth` is below the start depth (depth argument 0): the equality test
`current_depth == max_depth` never fires and deeper pages are fetched. -/
theorem crawl_bfs_depth_bounded (hashUrl : String → Nat) (uj : String → String → String)
    (world : World) (url : String) (s m : Nat) (hsm : s ≤ m) :
    (∀ e ∈ (Crawl.fetch_images_from_url hashUrl uj world url s m).fetched,
        s ≤ e.2 ∧ e.2 ≤ m)
    ∧ (∀ imgs lg, Crawl.fetch_images_from_url hashUrl uj world url s m = .ok imgs lg →
        imgs = (lg.map (Crawl.pageImages uj world)).flatten
        ∧ ∀ img ∈ imgs, s ≤ img.depth ∧ img.depth ≤ m) := by
  constructor
  · simp only [Crawl.fetch_images_from_url]
    apply Crawl.fetch_loop_fetched_bounds
    · intro e he
      rcases List.mem_singleton.mp he with rfl
      exact ⟨le_refl s, hsm⟩
    · intro e he
      cases he
  · intro imgs lg heq
    simp only [Crawl.fetch_images_from_url] at heq
    rcases Crawl.fetch_loop_ok_decomp hashUrl uj world m [(url, s)] [] [] [] imgs lg heq
      with ⟨ext, hlg, himgs⟩
    simp only [List.nil_append] at hlg himgs
    subst hlg
    refine ⟨himgs, ?_⟩
    have hbounds : ∀ e ∈ lg, s ≤ e.2 ∧ e.2 ≤ m := by
      have h0 := Crawl.fetch_loop_fetched_bounds hashUrl uj world m s [(url, s)] [] [] []
        (by
          intro e he
          rcases List.mem_singleton.mp he with rfl
          exact ⟨le_refl s, hsm⟩)
        (by
          intro e he
          cases he)
      rw [heq] at h0
      simpa [CrawlResult.fetched] using h0
    intro img hmem
    rw [himgs] at hmem
    rcases List.mem_flatten.mp hmem with ⟨l, hl, hmem2⟩
    rcases List.mem_map.mp hl with ⟨e, he, rfl⟩
    have hpd := Crawl.pageImages_page_depth uj world e img hmem2
    rw [hpd.2]
    exact hbounds e he

/-- C1 witness: a depth-1 crawl with `max_depth = 1` satisfies the amended
bounds. -/
theorem crawl_bfs_depth_bounded_witness :
    (1 : Nat) ≤ 1
    ∧ ((∀ e ∈ (Crawl.fetch_images_from_url demoHash (fun _ r => r)
          [("a", ⟨[some "i"], []⟩)] "a" 1 1).fetched, 1 ≤ e.2 ∧ e.2 ≤ 1)
      ∧ (∀ imgs lg, Crawl.fetch_images_from_url demoHash (fun _ r => r)
            [("a", ⟨[some "i"], []⟩)] "a" 1 1 = .ok imgs lg →
          imgs = (lg.map (Crawl.pageImages (fun _ r => r)
              [("a", ⟨[some "i"], []⟩)])).flatten
          ∧ ∀ img ∈ imgs, 1 ≤ img.depth ∧ img.depth ≤ 1)) :=
  ⟨by decide, crawl_bfs_depth_bounded demoHash (fun _ r => r)
    [("a", ⟨[some "i"], []⟩)] "a" 1 1 (by decide)⟩

/-- C1 counterexample: with `max_depth = 0` and the seed at depth 1 (the
program's invocation for depth argument 0), the BFS variant fetches the seed at
depth 1 and follows its link to a page at depth 2 — pages at depth
`max_depth + 1` and beyond are visited, refuting the unamended claim. -/
theorem crawl_bfs_depth_zero_counterexample :
    Crawl.fetch_images_from_url demoHash (fun _ r => r)
        [("a", ⟨[], [some "b"]⟩), ("b", ⟨[], []⟩)] "a" 1 0
      = .ok [] [("a", 1), ("b", 2)]
    ∧ ("b", 2) ∈ (Crawl.fetch_images_from_url demoHash (fun _ r => r)
        [("a", ⟨[], [some "b"]⟩), ("b", ⟨[], []⟩)] "a" 1 0).fetched
    ∧ 0 + 1 < 2 := by
  have heval : Crawl.fetch_images_from_url demoHash (fun _ r => r)
      [("a", ⟨[], [some "b"]⟩), ("b", ⟨[], []⟩)] "a" 1 0
      = .ok [] [("a", 1), ("b", 2)] := by
    simp [Crawl.fetch_images_from_url, Crawl.fetch_loop, demoHash, fetch_html_content,
      Crawl.extract_links, Crawl.extract_image_urls, MAX_IMAGES]
  refine ⟨heval, ?_, by decide⟩
  rw [heval]
  decide

/-- C2 (amended): the breadth-first variant (crawl.py) never fetches the same
URL twice in one invocation — the fetch-attempt log has pairwise-distinct URLs
— for every world, seed, depth bound and hash function; it terminates on every
finite world (the function below is total, by the decreasing measure of
unvisited served URLs).  The recursive variant (main.py) also terminates but
has no visited set and can fetch a URL once per path, refuting the unamended
claim (see the counterexample). -/
theorem crawl_bfs_fetches_nodup (hashUrl : String → Nat) (uj : String → String → String)
    (world : World) (url : String) (s m : Nat) :
    ((Crawl.fetch_images_from_url hashUrl uj world url s m).fetched.map Prod.fst).Nodup := by
  simp only [Crawl.fetch_images_from_url]
  apply Crawl.fetch_loop_fetched_nodup
  · intro x hx
    cases hx
  · exact List.nodup_nil

/-- C2 counterexample: in main.py, a page linking to itself is fetched once at
depth 1 and again at depth 2 — the fetch log repeats the URL. -/
theorem mainpy_refetch_counterexample :
    (MainPy.fetch_images_from_url [("a", ⟨[], [some "a"]⟩)] "a" 1 2).2
      = [("a", 1), ("a", 2)]
    ∧ ¬ ((MainPy.fetch_images_from_url [("a", ⟨[], [some "a"]⟩)] "a" 1 2).2.map
          Prod.fst).Nodup := by
  have heval : (MainPy.fetch_images_from_url [("a", ⟨[], [some "a"]⟩)] "a" 1 2).2
      = [("a", 1), ("a", 2)] := by
    simp [MainPy.fetch_images_from_url, MainPy.fetch_loop, fetch_html_content, MAX_IMAGES]
  refine ⟨heval, ?_⟩
  rw [heval]
  decide

/-- C3 (code bug): a live seed links to an unreachable page; `fetch_html_content`
returns `None` and crawl.py:130 then calls `extract_image_urls(None, ...)`,
raising an uncaught `AttributeError`: the crawl aborts — losing the already
collected images and the live page "c" still in the frontier — instead of
treating the dead page as zero images and zero links and continuing, as both
the spec and the function's own docstring ("Returns an empty list ... in case
of a request failure") promise. -/
theorem crawl_bfs_crashes_on_fetch_failure :
    Crawl.fetch_images_from_url demoHash (fun _ r => r)
        [("a", ⟨[some "i"], [some "dead", some "c"]⟩), ("c", ⟨[some "j"], []⟩)] "a" 1 2
      = .crashed [("a", 1), ("dead", 2)] := by
  simp [Crawl.fetch_images_from_url, Crawl.fetch_loop, demoHash, fetch_html_content,
    Crawl.extract_links, Crawl.extract_image_urls, MAX_IMAGES]

/-- C9: in the breadth-first variant, the depth fields of a successfully
returned descriptor sequence are non-decreasing from first to last: the FIFO
frontier processes all pages of one depth before any page of the next. -/
theorem crawl_bfs_depths_monotone (hashUrl : String → Nat) (uj : String → String → String)
    (world : World) (url : String) (s m : Nat) (imgs : List Image)
    (lg : List (String × Nat))
    (heq : Crawl.fetch_images_from_url hashUrl uj world url s m = .ok imgs lg) :
    List.Pairwise (fun a b : Image => a.depth ≤ b.depth) imgs := by
  simp only [Crawl.fetch_images_from_url] at heq
  refine Crawl.fetch_loop_sorted hashUrl uj world m [(url, s)] [] [] []
    (List.pairwise_singleton _ _) ?_ List.Pairwise.nil ?_ imgs lg heq
  · intro a ha b hb
    rcases List.mem_singleton.mp ha with rfl
    rcases List.mem_singleton.mp hb with rfl
    omega
  · intro x hx
    cases hx

/-- C9 witness: a two-page run returns images at depths 1 then 2, and the
theorem applies to it. -/
theorem crawl_bfs_depths_monotone_witness :
    Crawl.fetch_images_from_url demoHash (fun _ r => r)
        [("a", ⟨[some "i1"], [some "b"]⟩), ("b", ⟨[some "i2"], []⟩)] "a" 1 2
      = .ok [⟨"i1", "a", 1⟩, ⟨"i2", "b", 2⟩] [("a", 1), ("b", 2)]
    ∧ List.Pairwise (fun a b : Image => a.depth ≤ b.depth)
        [⟨"i1", "a", 1⟩, ⟨"i2", "b", 2⟩] := by
  have heval : Crawl.fetch_images_from_url demoHash (fun _ r => r)
      [("a", ⟨[some "i1"], [some "b"]⟩), ("b", ⟨[some "i2"], []⟩)] "a" 1 2
      = .ok [⟨"i1", "a", 1⟩, ⟨"i2", "b", 2⟩] [("a", 1), ("b", 2)] := by
    simp [Crawl.fetch_images_from_url, Crawl.fetch_loop, demoHash, fetch_html_content,
      Crawl.extract_links, Crawl.extract_image_urls, MAX_IMAGES]
  exact ⟨heval, crawl_bfs_depths_monotone demoHash (fun _ r => r)
    [("a", ⟨[some "i1"], [some "b"]⟩), ("b", ⟨[some "i2"], []⟩)] "a" 1 2 _ _ heval⟩

/-- C10: main.py's recursive `fetch_images_from_url` returns the empty list
immediately, with no network fetch, whenever `current_depth > max_depth`; in
particular the program invoked with depth argument 0 (seed numbered depth 1)
yields zero descriptors and fetches nothing. -/
theorem mainpy_depth_guard (world : World) (url : String)
    (current_depth max_depth : Nat) (h : max_depth < current_depth) :
    MainPy.fetch_images_from_url world url current_depth max_depth = ([], []) := by
  simp [MainPy.fetch_images_from_url, MainPy.fetch_loop]
  omega

/-- C10 witness: with a reachable seed and depth argument 0 nothing is fetched. -/
theorem mainpy_depth_guard_witness :
    (0 : Nat) < 1
    ∧ MainPy.fetch_images_from_url [("u", ⟨[some "i"], []⟩)] "u" 1 0 = ([], []) :=
  ⟨by decide, mainpy_depth_guard [("u", ⟨[some "i"], []⟩)] "u" 1 0 (by decide)⟩

/-- C4: when a page carries more source-bearing image elements than the cap
`MAX_IMAGES = 10`, extraction produces exactly `MAX_IMAGES` descriptors and
they are the image of the first `MAX_IMAGES` sources in document order — a
prefix cut of the full match list, so duplicates count toward the cap; and the
cap is per page fetch, not global: a crawl exists returning more than
`MAX_IMAGES` descriptors in total. -/
theorem extract_image_urls_cap (uj : String → String → String) (html : Page)
    (url : String) (dep : Nat)
    (hk : MAX_IMAGES < (html.imgs.filterMap id).length) :
    (Crawl.extract_image_urls uj html url dep).length = MAX_IMAGES
    ∧ Crawl.extract_image_urls uj html url dep
        = ((html.imgs.filterMap id).take MAX_IMAGES).map
            (fun src => (⟨uj url src, url, dep⟩ : Image))
    ∧ ∃ (world : World) (seed : String) (imgs : List Image) (lg : List (String × Nat)),
        Crawl.fetch_images_from_url demoHash (fun _ r => r) world seed 1 2 = .ok imgs lg
        ∧ MAX_IMAGES < imgs.length := by
  refine ⟨?_, ?_, ?_⟩
  · simp only [Crawl.extract_image_urls, List.length_take, List.length_map]
    omega
  · simp [Crawl.extract_image_urls, List.map_take]
  · refine ⟨[("a", ⟨[some "1", some "2", some "3", some "4", some "5", some "6"],
        [some "b"]⟩),
      ("b", ⟨[some "7", some "8", some "9", some "10", some "11", some "12"], []⟩)],
      "a",
      [⟨"1", "a", 1⟩, ⟨"2", "a", 1⟩, ⟨"3", "a", 1⟩, ⟨"4", "a", 1⟩, ⟨"5", "a", 1⟩,
        ⟨"6", "a", 1⟩, ⟨"7", "b", 2⟩, ⟨"8", "b", 2⟩, ⟨"9", "b", 2⟩, ⟨"10", "b", 2⟩,
        ⟨"11", "b", 2⟩, ⟨"12", "b", 2⟩],
      [("a", 1), ("b", 2)], ?_, by decide⟩
    simp [Crawl.fetch_images_from_url, Crawl.fetch_loop, demoHash, fetch_html_content,
      Crawl.extract_links, Crawl.extract_image_urls, MAX_IMAGES,
      List.take_of_length_le]

/-- C4 witness: a page with eleven sources yields exactly ten descriptors. -/
theorem extract_image_urls_cap_witness :
    MAX_IMAGES < (((⟨[some "1", some "2", some "3", some "4", some "5", some "6",
        some "7", some "8", some "9", some "10", some "11"], []⟩ : Page)).imgs.filterMap
        id).length
    ∧ (Crawl.extract_image_urls (fun _ r => r)
        ⟨[some "1", some "2", some "3", some "4", some "5", some "6", some "7",
          some "8", some "9", some "10", some "11"], []⟩ "p" 1).length = MAX_IMAGES :=
  ⟨by decide, (extract_image_urls_cap (fun _ r => r)
    ⟨[some "1", some "2", some "3", some "4", some "5", some "6", some "7",
      some "8", some "9", some "10", some "11"], []⟩ "p" 1 (by decide)).1⟩

/-- C5 (amended): crawl.py's downloader deduplicates by source URL on success:
the downloaded set stays duplicate-free, file writes correspond one-to-one (in
order) to successfully downloaded URLs, a URL the network serves (and that is
not a data URI) is requested at most once — exactly once when it occurs among
the descriptors — and processing is compositional (a failure is logged and
skipped, never aborting the remaining descriptors).  The unamended claim fails
for a URL whose download fails: it is not added to the dedup set, so a later
duplicate descriptor triggers a second request (see the counterexample). -/
theorem save_images_locally_dedup (net : List (String × String)) (images : List Image)
    (files : DirFiles) (u b : String)
    (hb : requests_get net u = some b) (h64 : Crawl.is_based64_encoded u = false) :
    (Crawl.save_images_locally net images files).downloaded.Nodup
    ∧ (Crawl.save_images_locally net images files).writes.map (fun wr => wr.1)
        = (Crawl.save_images_locally net images files).downloaded
    ∧ List.count u (Crawl.save_images_locally net images files).requests ≤ 1
    ∧ (u ∈ images.map Image.url →
        u ∈ (Crawl.save_images_locally net images files).downloaded
        ∧ List.count u (Crawl.save_images_locally net images files).requests = 1)
    ∧ ∀ xs ys st, Crawl.save_images_locally_loop net (xs ++ ys) st
        = Crawl.save_images_locally_loop net ys (Crawl.save_images_locally_loop net xs st) := by
  have hnd := Crawl.save_loop_nodup net images ⟨[], [], [], files⟩ (by simp) (by simp)
  have hcnt := Crawl.save_loop_count net u b hb h64 images ⟨[], [], [], files⟩
    (by simp) (by simp)
  exact ⟨hnd.1, hnd.2, hcnt.1,
    fun hm => ⟨hcnt.2.2 hm, hcnt.2.1.mp (hcnt.2.2 hm)⟩,
    fun xs ys st => Crawl.save_loop_append net xs ys st⟩

/-- C5 witness: two descriptors of one served URL produce one request, one
write, one downloaded entry. -/
theorem save_images_locally_dedup_witness :
    requests_get [("http://x/a.jpg", "B")] "http://x/a.jpg" = some "B"
    ∧ Crawl.is_based64_encoded "http://x/a.jpg" = false
    ∧ ((Crawl.save_images_locally [("http://x/a.jpg", "B")]
          [⟨"http://x/a.jpg", "p", 1⟩, ⟨"http://x/a.jpg", "q", 1⟩] []).downloaded.Nodup
      ∧ (Crawl.save_images_locally [("http://x/a.jpg", "B")]
          [⟨"http://x/a.jpg", "p", 1⟩, ⟨"http://x/a.jpg", "q", 1⟩] []).writes.map
            (fun wr => wr.1)
        = (Crawl.save_images_locally [("http://x/a.jpg", "B")]
          [⟨"http://x/a.jpg", "p", 1⟩, ⟨"http://x/a.jpg", "q", 1⟩] []).downloaded
      ∧ List.count "http://x/a.jpg" (Crawl.save_images_locally [("http://x/a.jpg", "B")]
          [⟨"http://x/a.jpg", "p", 1⟩, ⟨"http://x/a.jpg", "q", 1⟩] []).requests ≤ 1
      ∧ ("http://x/a.jpg" ∈ ([⟨"http://x/a.jpg", "p", 1⟩,
            ⟨"http://x/a.jpg", "q", 1⟩] : List Image).map Image.url →
          "http://x/a.jpg" ∈ (Crawl.save_images_locally [("http://x/a.jpg", "B")]
            [⟨"http://x/a.jpg", "p", 1⟩, ⟨"http://x/a.jpg", "q", 1⟩] []).downloaded
          ∧ List.count "http://x/a.jpg" (Crawl.save_images_locally [("http://x/a.jpg", "B")]
            [⟨"http://x/a.jpg", "p", 1⟩, ⟨"http://x/a.jpg", "q", 1⟩] []).requests = 1)
      ∧ ∀ xs ys st, Crawl.save_images_locally_loop [("http://x/a.jpg", "B")] (xs ++ ys) st
          = Crawl.save_images_locally_loop [("http://x/a.jpg", "B")] ys
              (Crawl.save_images_locally_loop [("http://x/a.jpg", "B")] xs st)) :=
  ⟨by decide, by decide,
    save_images_locally_dedup [("http://x/a.jpg", "B")]
      [⟨"http://x/a.jpg", "p", 1⟩, ⟨"http://x/a.jpg", "q", 1⟩] [] "http://x/a.jpg" "B"
      (by decide) (by decide)⟩

/-- C5 counterexample: two descriptors sharing a URL whose transport fails
yield two requests (the failed URL never enters the dedup set) and no file —
refuting "exactly one network request ... and exactly one file" as a universal
statement. -/
theorem save_images_locally_retry_counterexample :
    List.count "http://x/a.jpg"
      (Crawl.save_images_locally []
        [⟨"http://x/a.jpg", "p", 1⟩, ⟨"http://x/a.jpg", "p", 1⟩] []).requests = 2
    ∧ (Crawl.save_images_locally []
        [⟨"http://x/a.jpg", "p", 1⟩, ⟨"http://x/a.jpg", "p", 1⟩] []).writes = [] := by
  decide

/-- C6 (amended): crawl.py's downloader skips a base64 data-URI descriptor
before any client call: its URL is never requested and no written file stems
from it, for every network and descriptor list.  The unamended claim also
covers main.py's `save_images`, which lacks the base64 check and passes the
data URI to the HTTP client (the call fails as a transport error and is
logged); see the counterexample. -/
theorem save_images_locally_skips_base64 (net : List (String × String))
    (images : List Image) (files : DirFiles) (u : String)
    (h64 : Crawl.is_based64_encoded u = true) :
    u ∉ (Crawl.save_images_locally net images files).requests
    ∧ ∀ wr ∈ (Crawl.save_images_locally net images files).writes, wr.1 ≠ u :=
  Crawl.save_loop_base64 net images u h64 ⟨[], [], [], files⟩ (by simp) (by simp)

/-- C6 witness: even when the network maps the data URI to bytes, crawl.py's
downloader neither requests nor writes it. -/
theorem save_images_locally_skips_base64_witness :
    Crawl.is_based64_encoded "data:image/png;base64,AAAA" = true
    ∧ ("data:image/png;base64,AAAA" ∉ (Crawl.save_images_locally
          [("data:image/png;base64,AAAA", "D")]
          [⟨"data:image/png;base64,AAAA", "p", 1⟩] []).requests
      ∧ ∀ wr ∈ (Crawl.save_images_locally [("data:image/png;base64,AAAA", "D")]
          [⟨"data:image/png;base64,AAAA", "p", 1⟩] []).writes,
          wr.1 ≠ "data:image/png;base64,AAAA") :=
  ⟨by decide, save_images_locally_skips_base64 [("data:image/png;base64,AAAA", "D")]
    [⟨"data:image/png;base64,AAAA", "p", 1⟩] [] "data:image/png;base64,AAAA" (by decide)⟩

/-- C6 counterexample: main.py's `save_images` issues the client call for a
base64 data URI (here it fails as a transport error, so no file is written,
but the request is attempted) — refuting "never issues a network request" for
the recursive variant's download step. -/
theorem mainpy_base64_request_counterexample :
    Crawl.is_based64_encoded "data:image/png;base64,AAAA" = true
    ∧ (MainPy.save_images [] (some [])
        [⟨"data:image/png;base64,AAAA", "p", 1⟩]).2.1.requests
      = ["data:image/png;base64,AAAA"] := by
  decide

/-- C7 (amended): in crawl.py, every extracted descriptor's `url` field is the
page's resolver applied to some source attribute of the page, with the `page`
and `depth` fields set to the page URL and its depth — this holds for every
resolver, in particular `urljoin`.  The unamended claim also covers main.py,
which stores the raw `img["src"]` unresolved, so a relative source stays
relative; see the counterexample. -/
theorem extract_image_urls_resolves (uj : String → String → String) (html : Page)
    (url : String) (dep : Nat) (img : Image)
    (h : img ∈ Crawl.extract_image_urls uj html url dep) :
    img.page = url ∧ img.depth = dep
    ∧ ∃ src ∈ html.imgs.filterMap id, img.url = uj url src :=
  Crawl.mem_extract uj html url dep img h

/-- C7 witness: with the modelled resolver, a relative source `pic.jpg` on page
`http://x/` yields the absolute descriptor URL `http://x/pic.jpg`. -/
theorem extract_image_urls_resolves_witness :
    (⟨"http://x/pic.jpg", "http://x/", 1⟩ : Image) ∈ Crawl.extract_image_urls
        urljoinModel ⟨[some "pic.jpg"], []⟩ "http://x/" 1
    ∧ ((⟨"http://x/pic.jpg", "http://x/", 1⟩ : Image).page = "http://x/"
      ∧ (⟨"http://x/pic.jpg", "http://x/", 1⟩ : Image).depth = 1
      ∧ ∃ src ∈ (⟨[some "pic.jpg"], []⟩ : Page).imgs.filterMap id,
          (⟨"http://x/pic.jpg", "http://x/", 1⟩ : Image).url = urljoinModel "http://x/" src) :=
  ⟨by decide, extract_image_urls_resolves urljoinModel ⟨[some "pic.jpg"], []⟩
    "http://x/" 1 ⟨"http://x/pic.jpg", "http://x/", 1⟩ (by decide)⟩

/-- C7 counterexample: main.py keeps the raw source attribute: on page
`http://x/` the source `pic.jpg` is stored as the descriptor URL `pic.jpg`,
which differs from its base-relative resolution `http://x/pic.jpg` — the
descriptor does not carry an absolute URL. -/
theorem mainpy_raw_src_counterexample :
    (MainPy.fetch_images_from_url [("http://x/", ⟨[some "pic.jpg"], []⟩)]
        "http://x/" 1 1).1
      = [⟨"pic.jpg", "http://x/", 1⟩]
    ∧ urljoinModel "http://x/" "pic.jpg" = "http://x/pic.jpg"
    ∧ "http://x/pic.jpg" ≠ "pic.jpg" := by
  refine ⟨?_, by decide, by decide⟩
  simp [MainPy.fetch_images_from_url, MainPy.fetch_loop, fetch_html_content, MAX_IMAGES]

/-- C8 (amended): crawl.py's `save_images_metadata` always leaves the `images/`
directory existing and cleared of prior content; it writes the single
`{"images": [...]}` document, preserving input order, exactly when the input
is non-empty, and for an empty input writes nothing and logs the absence.  The
unamended claim also covers main.py's `save_images`, which neither clears the
directory nor ensures it exists on empty input; see the counterexample. -/
theorem save_images_metadata_spec (dir : Option DirFiles) (images : List Image) :
    Crawl.save_images_metadata dir images
      = if images.isEmpty then (some [], true)
        else (some [("images.json", FileContent.jsonDoc images)], false) := by
  rcases dir with _ | fs <;> rcases images with _ | ⟨i, is⟩ <;>
    simp [Crawl.save_images_metadata, writeFile]

/-- C8 counterexample: main.py's `save_images` on an empty descriptor list
leaves a missing directory missing (the claim says it still exists), and on a
non-empty list keeps stale prior directory contents (no clearing). -/
theorem mainpy_metadata_counterexample :
    (MainPy.save_images [] none []).1 = none
    ∧ (MainPy.save_images [("http://x/a.jpg", "D")]
        (some [("stale.txt", .imgBytes "z")]) [⟨"http://x/a.jpg", "p", 1⟩]).1
      = some [("stale.txt", .imgBytes "z"),
          ("images.json", .jsonDoc [⟨"http://x/a.jpg", "p", 1⟩]),
          ("a.jpg", .imgBytes "D")] := by
  decide
